import Mathlib

/-!
Shallow embedding of the Ushadow launcher's discovery and lifecycle engine
(src-tauri/src/commands/discovery.rs and docker.rs), together with theorems
checking the specification's statements against it.

Rust strings are modelled as Lean `String`s, with the character-level
operations (split, trim, find, starts_with, ends_with, trim_start_matches,
trim_end_matches, parse::<u16>) re-implemented over `List Char` to mirror
the Rust standard library's documented behaviour.  External effects
(spawning the container runtime, HTTP probes, TCP binds) are modelled as
explicit parameters: the runtime listing becomes an `Except` value, the
mesh probe becomes a function `Nat → Option String`, and port availability
becomes a predicate `Nat → Bool`.
-/

namespace Ushadow

/-- Model of Rust `str::find` for a substring needle, returning the index
(in characters) of the first occurrence. `find("")` is `some 0`, as in Rust. -/
def findSubIdx : List Char → List Char → Option Nat
  | l, sub =>
    if sub.isPrefixOf l then some 0
    else
      match l with
      | [] => none
      | _ :: t => (findSubIdx t sub).map (· + 1)

/-- Model of Rust `str::contains` (substring containment). -/
def containsSub (l sub : List Char) : Bool :=
  (findSubIdx l sub).isSome

/-- Substring containment on `String`s, as used by the Rust code's
`name.contains(...)` and `status.contains("Up")` calls. -/
def strContains (s t : String) : Bool :=
  containsSub s.data t.data

/-- Model of Rust `str::split` with a single-character separator: the list
of (possibly empty) segments between occurrences of the separator. -/
def splitChar (c : Char) : List Char → List (List Char)
  | [] => [[]]
  | x :: t =>
    if x = c then [] :: splitChar c t
    else
      match splitChar c t with
      | [] => [[x]]
      | h :: r => (x :: h) :: r

/-- Model of Rust `str::lines`: split on newline, strip a trailing carriage
return from each line, and drop the final empty segment produced by a
trailing newline. -/
def rustLines (l : List Char) : List (List Char) :=
  let ps := (splitChar '\n' l).map fun p => if p.getLast? = some '\r' then p.dropLast else p
  match ps.getLast? with
  | some [] => ps.dropLast
  | _ => ps

/-- Model of Rust `str::trim`: drop whitespace from both ends. -/
def rustTrim (l : List Char) : List Char :=
  ((l.dropWhile Char.isWhitespace).reverse.dropWhile Char.isWhitespace).reverse

/-- Model of Rust `str::trim_start_matches`: repeatedly strip the pattern
from the front while it is a prefix.  The fuel argument (initialised to the
length of the string) dominates the number of possible strips, so the
function computes the full fixpoint. -/
def stripFrontGo : Nat → List Char → List Char → List Char
  | 0, _, l => l
  | fuel + 1, p, l =>
    if !p.isEmpty && p.isPrefixOf l then stripFrontGo fuel p (l.drop p.length) else l

/-- Rust `str::trim_start_matches`. -/
def stripFrontAll (p l : List Char) : List Char :=
  stripFrontGo l.length p l

/-- Rust `str::trim_end_matches`, via reversal. -/
def stripBackAll (p l : List Char) : List Char :=
  (stripFrontAll p.reverse l.reverse).reverse

/-- Text before the first occurrence of `sep` (the whole string when there
is none): Rust `s.split(sep).next().unwrap()` for a multi-character
separator. -/
def upToFirst (sep l : List Char) : List Char :=
  match findSubIdx l sep with
  | some i => l.take i
  | none => l

/-- Text after the last occurrence of the character `c` (the whole string
when there is none): Rust `s.split(c).last().unwrap()`. -/
def afterLastChar (c : Char) (l : List Char) : List Char :=
  (l.reverse.takeWhile (fun x => x ≠ c)).reverse

/-- Numeric value of a list of decimal digit characters. -/
def digitsVal (l : List Char) : Nat :=
  l.foldl (fun a c => 10 * a + (c.toNat - 48)) 0

/-- Digit-run part of Rust `str::parse::<u16>`: a non-empty run of decimal
digits whose value fits in 16 bits. -/
def parseU16core (t : List Char) : Option Nat :=
  if t ≠ [] ∧ t.all Char.isDigit then
    if digitsVal t ≤ 65535 then some (digitsVal t) else none
  else none

/-- Model of Rust `str::parse::<u16>`: an optional leading `+`, then a
non-empty run of decimal digits whose value fits in 16 bits. -/
def parseU16 (l : List Char) : Option Nat :=
  parseU16core (if l.head? = some '+' then l.tail else l)

/-- The separator of a Docker port mapping (the arrow in `8050->8000/tcp`). -/
def arrowSep : List Char := ['-', '>']

/-- The body of the `extract_port` loop for one comma segment: the text
before the first arrow (Rust `part.split("->").next()`), then the text
after its last colon (Rust `mapping.split(':').last()`), trimmed and
parsed as a u16. -/
def portOfPart (part : List Char) : Option Nat :=
  parseU16 (rustTrim (afterLastChar ':' (upToFirst arrowSep part)))

/-- Embedding of `extract_port` from discovery.rs: split the ports string on
commas and return the first segment whose mapping parses. -/
def extract_port (ports_str : String) : Option Nat :=
  (splitChar ',' ports_str.data).findSome? portOfPart

/-- The `INFRA_PATTERNS` table from discovery.rs. -/
def INFRA_PATTERNS : List (String × String) :=
  [("mongo", "MongoDB"), ("redis", "Redis"), ("neo4j", "Neo4j"), ("qdrant", "Qdrant")]

/-- The infrastructure-name rule from discovery.rs: the container name
equals the pattern, or ends with `-<pattern>`, or ends with `-<pattern>-1`. -/
def matchesInfra (name pat : List Char) : Bool :=
  name == pat || ('-' :: pat).isSuffixOf name || ('-' :: pat ++ ['-', '1']).isSuffixOf name

/-- Mirror of the Rust struct `InfraService` (models.rs). -/
structure InfraService where
  name : String
  display_name : String
  running : Bool
  ports : Option String
deriving Repr, DecidableEq

/-- Mirror of the Rust struct `UshadowEnvironment` (models.rs); ports are
Nat with the u16 range enforced by `parseU16`. -/
structure UshadowEnvironment where
  name : String
  color : String
  localhost_url : String
  tailscale_url : Option String
  backend_port : Nat
  webui_port : Option Nat
  running : Bool
  tailscale_active : Bool
deriving Repr, DecidableEq

/-- Mirror of the Rust struct `DiscoveryResult` (models.rs). -/
structure DiscoveryResult where
  infrastructure : List InfraService
  environments : List UshadowEnvironment
  docker_ok : Bool
  tailscale_ok : Bool
deriving Repr, DecidableEq

/-- One parsed line of `docker ps` output: name, run state, ports column. -/
structure ContainerRec where
  name : String
  running : Bool
  ports : Option String
deriving Repr, DecidableEq

/-- Embedding of the per-line parsing in `discover_environments`
(discovery.rs lines 50–64): trim the line, skip empty lines, split on `|`,
skip lines with fewer than two fields, trim each field; the run state is
whether the status field contains `Up`. -/
def parseLine (line : String) : Option ContainerRec :=
  let l := rustTrim line.data
  if l = [] then none
  else
    let parts := splitChar '|' l
    if parts.length < 2 then none
    else
      let name := rustTrim (parts.getD 0 [])
      let status := rustTrim (parts.getD 1 [])
      let ports := if parts.length > 2 then some (String.mk (rustTrim (parts.getD 2 []))) else none
      some ⟨String.mk name, containsSub status ['U', 'p'], ports⟩

/-- The environment-backend rule (discovery.rs line 82): contains
`backend`, starts with `ushadow`, does not contain `chronicle`. -/
def acceptsBackend (name : String) : Bool :=
  strContains name "backend" && "ushadow".data.isPrefixOf name.data &&
    !(strContains name "chronicle")

/-- The environment-name derivation (discovery.rs lines 83–89). -/
def envNameOf (name : String) : String :=
  if name = "ushadow-backend" then "default"
  else String.mk (stripBackAll "-backend".data (stripFrontAll "ushadow-".data name.data))

/-- The backend contribution of one parsed container record (discovery.rs
lines 82–98): zero or one `(environment name, backend port)` pair. -/
def backendStep (r : ContainerRec) : List (String × Nat) :=
  if acceptsBackend r.name then
    match r.ports with
    | some ps =>
      match extract_port ps with
      | some port => if r.running then [(envNameOf r.name, port)] else []
      | none => []
    | none => []
  else []

/-- One pattern-table entry applied to one record (discovery.rs lines
67–79): push a new `InfraService` if the name matches and the key was not
seen before. -/
def infraStep1 (r : ContainerRec) (st : List String × List InfraService)
    (pd : String × String) : List String × List InfraService :=
  if matchesInfra r.name.data pd.1.data && !(st.1.contains pd.1) then
    (pd.1 :: st.1, st.2 ++ [⟨pd.1, pd.2, r.running, r.ports⟩])
  else st

/-- The full pattern table applied to one record. -/
def infraStep (st : List String × List InfraService) (r : ContainerRec) :
    List String × List InfraService :=
  INFRA_PATTERNS.foldl (infraStep1 r) st

/-- One line of the main discovery loop: unparseable lines are skipped;
parsed records feed both the infrastructure table and the backend list. -/
def lineStep (st : (List String × List InfraService) × List (String × Nat))
    (line : String) : (List String × List InfraService) × List (String × Nat) :=
  match parseLine line with
  | none => st
  | some r => (infraStep st.1 r, st.2 ++ backendStep r)

/-- Environment assembly for one backend (discovery.rs lines 103–129).
The mesh probe `get_tailscale_url` is abstracted as `mesh`. -/
def mkEnv (mesh : Nat → Option String) (nb : String × Nat) : UshadowEnvironment :=
  let tailscale_url := mesh nb.2
  let webui_port := if nb.2 ≥ 8000 then some (nb.2 - 5000) else none
  let localhost_url := match webui_port with
    | some wp => "http://localhost:" ++ Nat.repr wp
    | none => "http://localhost:" ++ Nat.repr nb.2
  ⟨nb.1, nb.1, localhost_url, tailscale_url, nb.2, webui_port, true, tailscale_url.isSome⟩

/-- The full discovery pass over already-split output lines. -/
def discoverFromLines (lines : List String) (mesh : Nat → Option String)
    (tailscale_ok : Bool) : DiscoveryResult :=
  let st := lines.foldl lineStep (([], []), [])
  ⟨st.1.2, st.2.map (mkEnv mesh), true, tailscale_ok⟩

/-- Rust `str::lines` lifted to `String`s. -/
def linesOf (stdout : String) : List String :=
  (rustLines stdout.data).map String.mk

/-- Embedding of `discover_environments` (discovery.rs lines 16–138).
The docker/tailscale prerequisite probes are the boolean parameters; the
`docker ps` invocation is the `listing` parameter (spawn error, or exit
status together with stdout and stderr); the per-port mesh probe is
`mesh`. -/
def discover_environments (docker_installed docker_running tailscale_ok : Bool)
    (listing : Except String (Bool × String × String))
    (mesh : Nat → Option String) : Except String DiscoveryResult :=
  if docker_installed && docker_running then
    match listing with
    | .error e => .error ("Failed to get containers: " ++ e)
    | .ok (success, stdout, stderr) =>
      if success then .ok (discoverFromLines (linesOf stdout) mesh tailscale_ok)
      else .error ("Docker command failed: " ++ stderr)
  else .ok ⟨[], [], false, tailscale_ok⟩

/-- The response-body scan of `get_tailscale_url` (discovery.rs lines
168–182): split the body on commas; for each segment containing the field
literal, look for `https://` anywhere in the segment and return up to the
next double quote. -/
def scanMeshUrl (body : String) : Option String :=
  (splitChar ',' body.data).findSome? fun line =>
    if containsSub line "ushadow_api_url".data then
      match findSubIdx line "https://".data with
      | some start =>
        let rest := line.drop start
        match rest.findIdx? (· = '"') with
        | some e => some (String.mk (rest.take e))
        | none => none
      | none => none
    else none

/-- Embedding of `get_tailscale_url` (discovery.rs lines 156–183) with the
HTTP call abstracted: a spawn failure or non-success exit yields no URL,
otherwise the body is scanned. -/
def get_tailscale_url (response : Except Unit (Bool × String)) : Option String :=
  match response with
  | .error _ => none
  | .ok (success, body) => if success then scanMeshUrl body else none

/-- The container-name filter of `start_environment` (docker.rs lines
170–201). -/
def start_filter (env_name name : String) : Bool :=
  if env_name = "default" then
    ("ushadow-" : String).data.isPrefixOf name.data &&
      (name == "ushadow-backend" || name == "ushadow-webui" || name == "ushadow-frontend" ||
       name == "ushadow-worker" || name == "ushadow-tailscale" ||
       "ushadow-backend-".data.isPrefixOf name.data ||
       "ushadow-webui-".data.isPrefixOf name.data ||
       "ushadow-frontend-".data.isPrefixOf name.data ||
       "ushadow-worker-".data.isPrefixOf name.data ||
       "ushadow-tailscale-".data.isPrefixOf name.data)
  else ("ushadow-" ++ env_name ++ "-").data.isPrefixOf name.data

/-- The container-name filter of `stop_environment` (docker.rs lines
229–262); unlike the start filter it also requires, for the default
environment, that the name not contain `-backend-`. -/
def stop_filter (env_name name : String) : Bool :=
  if env_name = "default" then
    ("ushadow-" : String).data.isPrefixOf name.data && !(strContains name "-backend-") &&
      (name == "ushadow-backend" || name == "ushadow-webui" || name == "ushadow-frontend" ||
       name == "ushadow-worker" || name == "ushadow-tailscale" ||
       "ushadow-backend-".data.isPrefixOf name.data ||
       "ushadow-webui-".data.isPrefixOf name.data ||
       "ushadow-frontend-".data.isPrefixOf name.data ||
       "ushadow-worker-".data.isPrefixOf name.data ||
       "ushadow-tailscale-".data.isPrefixOf name.data)
  else ("ushadow-" ++ env_name ++ "-").data.isPrefixOf name.data

/-- The containers selected by `start_environment` from a listing. -/
def start_matches (env_name : String) (names : List String) : List String :=
  names.filter (start_filter env_name)

/-- The containers selected by `stop_environment` from a listing. -/
def stop_matches (env_name : String) (names : List String) : List String :=
  names.filter (stop_filter env_name)

/-- Embedding of the loop of `find_available_ports` (docker.rs lines
38–59), with the TCP bind probe abstracted as `avail`. -/
def find_available_ports_aux (avail : Nat → Bool) (db dw offset : Nat) : Nat × Nat :=
  if avail (db + offset) && avail (dw + offset) then (db + offset, dw + offset)
  else if offset + 10 > 1000 then (db, dw)
  else find_available_ports_aux avail db dw (offset + 10)
termination_by 1001 - offset
decreasing_by omega

/-- Embedding of `find_available_ports` (docker.rs lines 38–59). -/
def find_available_ports (avail : Nat → Bool) (db dw : Nat) : Nat × Nat :=
  find_available_ports_aux avail db dw 0

/-- Embedding of the offset-search loop of `check_ports` (docker.rs lines
25–31). -/
def check_ports_loop (avail : Nat → Bool) (offset : Nat) : Nat :=
  if offset ≤ 1000 then
    if avail (8000 + offset) && avail (3000 + offset) then offset
    else check_ports_loop avail (offset + 10)
  else 0
termination_by 1001 - offset
decreasing_by omega

/-- Embedding of `check_ports` (docker.rs lines 16–34). -/
def check_ports (avail : Nat → Bool) : Bool × Bool × Nat :=
  let backend_ok := avail 8000
  let webui_ok := avail 3000
  if backend_ok && webui_ok then (true, true, 0)
  else (backend_ok, webui_ok, check_ports_loop avail 10)

/-- The container records parsed from a list of output lines. -/
def recordsOf (lines : List String) : List ContainerRec :=
  lines.filterMap parseLine

/-- The accumulated backend pairs of a list of output lines. -/
def backendsOf (lines : List String) : List (String × Nat) :=
  (recordsOf lines).flatMap backendStep

/-- The claim's reading of the mesh-URL scan, stated for comparison with
`scanMeshUrl`: find the field literal in the whole body, then the first
`https://` occurrence after it, and return up to the next double quote. -/
def claimMeshScan (body : String) : Option String :=
  match findSubIdx body.data "ushadow_api_url".data with
  | none => none
  | some i =>
    let after := body.data.drop (i + 15)
    match findSubIdx after "https://".data with
    | none => none
    | some j =>
      let rest := after.drop j
      match rest.findIdx? (· = '"') with
      | some e => some (String.mk (rest.take e))
      | none => none

/-- Whether a container record's name matches a given infrastructure key. -/
def matchKey (key : String) (r : ContainerRec) : Bool :=
  matchesInfra r.name.data key.data

/-- Invariant of the infrastructure accumulation: emitted keys are unique,
the seen-set agrees with the emitted keys, and every emitted service's run
state and ports come from the first record (in listing order) whose name
matches its key. -/
def InfraInv (recs : List ContainerRec) (st : List String × List InfraService) : Prop :=
  (st.2.map InfraService.name).Nodup ∧
  (∀ p : String, p ∈ st.1 ↔ p ∈ st.2.map InfraService.name) ∧
  (∀ s ∈ st.2, ∃ r, recs.find? (matchKey s.name) = some r ∧
    s.running = r.running ∧ s.ports = r.ports)

/-- Keys of the given pattern-table entries that have not been seen have no
matching record among the records processed so far. -/
def InfraFresh (recs : List ContainerRec) (found : List String)
    (ps : List (String × String)) : Prop :=
  ∀ pd ∈ ps, pd.1 ∉ found → recs.find? (matchKey pd.1) = none

/-! ### Pipeline structure lemmas -/

theorem foldl_lineStep (lines : List String) (fi : List String × List InfraService)
    (b : List (String × Nat)) :
    lines.foldl lineStep (fi, b) =
      ((lines.filterMap parseLine).foldl infraStep fi,
       b ++ (lines.filterMap parseLine).flatMap backendStep) := by
  induction lines generalizing fi b with
  | nil => simp
  | cons l ls ih =>
    cases h : parseLine l with
    | none => simp [lineStep, h, ih]
    | some r => simp [lineStep, h, ih]

theorem discoverFromLines_eq (lines : List String) (mesh : Nat → Option String)
    (tok : Bool) :
    discoverFromLines lines mesh tok =
      ⟨((recordsOf lines).foldl infraStep ([], [])).2,
       (backendsOf lines).map (mkEnv mesh), true, tok⟩ := by
  simp [discoverFromLines, foldl_lineStep, recordsOf, backendsOf]

theorem discover_ok_inv (di dr tok : Bool) (listing : Except String (Bool × String × String))
    (mesh : Nat → Option String) (d : DiscoveryResult)
    (h : discover_environments di dr tok listing mesh = .ok d) :
    d = ⟨[], [], false, tok⟩ ∨
      ∃ stdout stderr, listing = .ok (true, stdout, stderr) ∧
        d = discoverFromLines (linesOf stdout) mesh tok := by
  unfold discover_environments at h
  cases hdd : di && dr with
  | false =>
    rw [hdd] at h
    simp at h
    exact Or.inl h.symm
  | true =>
    rw [hdd] at h
    cases listing with
    | error e => simp at h
    | ok t =>
      obtain ⟨succ, stdout, stderr⟩ := t
      cases succ with
      | false => simp at h
      | true =>
        simp at h
        exact Or.inr ⟨stdout, stderr, rfl, h.symm⟩

theorem mem_environments_inv (lines : List String) (mesh : Nat → Option String)
    (tok : Bool) (e : UshadowEnvironment)
    (he : e ∈ (discoverFromLines lines mesh tok).environments) :
    ∃ nb ∈ backendsOf lines, e = mkEnv mesh nb := by
  rw [discoverFromLines_eq] at he
  obtain ⟨nb, hnb, hmk⟩ := List.mem_map.mp he
  exact ⟨nb, hnb, hmk.symm⟩

/-! ### C9: runtime unavailable degrades to an empty, successful snapshot -/

/-- C9: whenever the container runtime is unavailable (not installed or the
daemon not running), discovery returns a successful result whose
infrastructure and environments lists are empty and whose runtime flag is
false. -/
theorem c9_runtime_unavailable (di dr tok : Bool)
    (listing : Except String (Bool × String × String)) (mesh : Nat → Option String)
    (h : (di && dr) = false) :
    discover_environments di dr tok listing mesh = .ok ⟨[], [], false, tok⟩ := by
  unfold discover_environments
  rw [h]
  rfl

theorem c9_witness :
    (false && true) = false ∧
      discover_environments false true true (.ok (true, "x|Up|", "")) (fun _ => none) =
        .ok ⟨[], [], false, true⟩ :=
  ⟨rfl, c9_runtime_unavailable false true true (.ok (true, "x|Up|", "")) (fun _ => none) rfl⟩

/-! ### C3: environment-name derivation -/

/-- C3: for every container name accepted by the environment-backend rule,
the derived environment name is "default" exactly for the literal name
`ushadow-backend`, and otherwise the name with the `ushadow-` application
prefix and any trailing `-backend` suffix stripped; in particular
`ushadow-foo-backend` yields `foo`. -/
theorem c3_env_name (name : String) (_h : acceptsBackend name = true) :
    envNameOf name = (if name = "ushadow-backend" then "default"
      else String.mk (stripBackAll "-backend".data (stripFrontAll "ushadow-".data name.data))) ∧
    envNameOf "ushadow-foo-backend" = "foo" :=
  ⟨rfl, by decide⟩

theorem c3_witness :
    acceptsBackend "ushadow-foo-backend" = true ∧
      (envNameOf "ushadow-foo-backend" =
        (if "ushadow-foo-backend" = "ushadow-backend" then "default"
         else String.mk (stripBackAll "-backend".data
           (stripFrontAll "ushadow-".data "ushadow-foo-backend".data))) ∧
       envNameOf "ushadow-foo-backend" = "foo") :=
  ⟨by decide, c3_env_name "ushadow-foo-backend" (by decide)⟩

/-! ### C2: start and stop filters -/

/-- C2 counterexample: for the default environment the container name
`ushadow-backend-1` is selected by the start filter but not by the stop
filter, so the two filters do not select the same set. -/
theorem c2_counterexample :
    start_matches "default" ["ushadow-backend-1"] = ["ushadow-backend-1"] ∧
    stop_matches "default" ["ushadow-backend-1"] = [] := by decide

/-- C2 amended: the stop filter agrees with the start filter for every
non-default environment name; for the default environment it is the start
filter strengthened by the extra requirement that the container name not
contain `-backend-`. -/
theorem c2_filters_agree (env_name name : String) :
    stop_filter env_name name =
      (if env_name = "default" then
        start_filter env_name name && !(strContains name "-backend-")
       else start_filter env_name name) := by
  unfold stop_filter start_filter
  by_cases h : env_name = "default"
  · rw [if_pos h, if_pos h, if_pos h, Bool.and_right_comm]
  · rw [if_neg h, if_neg h, if_neg h]

/-! ### C1: the local URL of an emitted environment -/

/-- C1 counterexample: a running backend container published on port 8050
yields an environment whose localURL is built from the derived UI port
3050, not from the backend port 8050 as the claim states. -/
theorem c1_counterexample :
    discover_environments true true false
        (.ok (true, "ushadow-backend|Up 2 hours|0.0.0.0:8050->8000/tcp", ""))
        (fun _ => none) =
      .ok ⟨[], [⟨"default", "default", "http://localhost:3050", none, 8050, some 3050,
                 true, false⟩], true, false⟩ ∧
    "http://localhost:3050" ≠ "http://localhost:8050" := by
  constructor
  · rfl
  · decide

/-- C1 amended: every emitted environment's localURL is
`http://localhost:<uiPort>` when a UI port was derived (backend port at
least 8000), and `http://localhost:<backendPort>` otherwise. -/
theorem c1_local_url (di dr tok : Bool) (listing : Except String (Bool × String × String))
    (mesh : Nat → Option String) (d : DiscoveryResult)
    (h : discover_environments di dr tok listing mesh = .ok d) :
    ∀ e ∈ d.environments,
      e.localhost_url = match e.webui_port with
        | some wp => "http://localhost:" ++ Nat.repr wp
        | none => "http://localhost:" ++ Nat.repr e.backend_port := by
  intro e he
  rcases discover_ok_inv di dr tok listing mesh d h with hempty | ⟨stdout, stderr, _, hd⟩
  · rw [hempty] at he
    simp at he
  · rw [hd] at he
    obtain ⟨nb, _, hmk⟩ := mem_environments_inv _ _ _ _ he
    subst hmk
    show (mkEnv mesh nb).localhost_url = _
    by_cases hp : nb.2 ≥ 8000 <;> simp [mkEnv, hp]

theorem c1_witness :
    discover_environments true true true
        (.ok (true, "ushadow-backend|Up|0.0.0.0:8050->8000/tcp", "")) (fun _ => none) =
      .ok (discoverFromLines (linesOf "ushadow-backend|Up|0.0.0.0:8050->8000/tcp")
            (fun _ => none) true) ∧
    (∀ e ∈ (discoverFromLines (linesOf "ushadow-backend|Up|0.0.0.0:8050->8000/tcp")
            (fun _ => none) true).environments,
      e.localhost_url = match e.webui_port with
        | some wp => "http://localhost:" ++ Nat.repr wp
        | none => "http://localhost:" ++ Nat.repr e.backend_port) :=
  ⟨rfl, c1_local_url true true true
    (.ok (true, "ushadow-backend|Up|0.0.0.0:8050->8000/tcp", "")) (fun _ => none) _ rfl⟩

/-! ### C6: the UI-port offset convention -/

/-- C6: every emitted environment has uiPort equal to backendPort − 5000
when backendPort ≥ 8000, and no uiPort when backendPort < 8000. -/
theorem c6_ui_port (di dr tok : Bool) (listing : Except String (Bool × String × String))
    (mesh : Nat → Option String) (d : DiscoveryResult)
    (h : discover_environments di dr tok listing mesh = .ok d) :
    ∀ e ∈ d.environments,
      (8000 ≤ e.backend_port → e.webui_port = some (e.backend_port - 5000)) ∧
      (e.backend_port < 8000 → e.webui_port = none) := by
  intro e he
  rcases discover_ok_inv di dr tok listing mesh d h with hempty | ⟨stdout, stderr, _, hd⟩
  · rw [hempty] at he
    simp at he
  · rw [hd] at he
    obtain ⟨nb, _, hmk⟩ := mem_environments_inv _ _ _ _ he
    subst hmk
    constructor
    · intro hge
      have hge' : nb.2 ≥ 8000 := hge
      simp [mkEnv, hge']
    · intro hlt
      have hlt' : ¬ nb.2 ≥ 8000 := by
        simp only [mkEnv] at hlt
        omega
      simp [mkEnv, hlt']

theorem c6_witness :
    discover_environments true true true
        (.ok (true, "ushadow-backend|Up|0.0.0.0:8050->8000/tcp\nushadow-low-backend|Up|0.0.0.0:500->80/tcp", ""))
        (fun _ => none) =
      .ok (discoverFromLines
            (linesOf "ushadow-backend|Up|0.0.0.0:8050->8000/tcp\nushadow-low-backend|Up|0.0.0.0:500->80/tcp")
            (fun _ => none) true) ∧
    (∀ e ∈ (discoverFromLines
            (linesOf "ushadow-backend|Up|0.0.0.0:8050->8000/tcp\nushadow-low-backend|Up|0.0.0.0:500->80/tcp")
            (fun _ => none) true).environments,
      (8000 ≤ e.backend_port → e.webui_port = some (e.backend_port - 5000)) ∧
      (e.backend_port < 8000 → e.webui_port = none)) :=
  ⟨rfl, c6_ui_port true true true
    (.ok (true, "ushadow-backend|Up|0.0.0.0:8050->8000/tcp\nushadow-low-backend|Up|0.0.0.0:500->80/tcp", ""))
    (fun _ => none) _ rfl⟩

/-! ### String-utility lemmas for the port decoder -/

theorem findSome?_singleton {α β : Type} (f : α → Option β) (a : α) :
    List.findSome? f [a] = f a := by
  rw [List.findSome?_cons]
  cases f a <;> simp

theorem splitChar_not_mem {c : Char} {l : List Char} (h : c ∉ l) :
    splitChar c l = [l] := by
  induction l with
  | nil => rfl
  | cons a t ih =>
    have ha : ¬ a = c := fun e => h (e ▸ List.mem_cons_self a t)
    have ht : c ∉ t := fun e => h (List.mem_cons_of_mem a e)
    rw [splitChar, if_neg ha, ih ht]

theorem mem_of_splitChar {c : Char} :
    ∀ {l part : List Char}, part ∈ splitChar c l → ∀ {x : Char}, x ∈ part → x ∈ l := by
  intro l
  induction l with
  | nil =>
    intro part hp x hx
    simp only [splitChar, List.mem_singleton] at hp
    subst hp
    simp at hx
  | cons a t ih =>
    intro part hp x hx
    by_cases hac : a = c
    · rw [splitChar, if_pos hac] at hp
      rcases List.mem_cons.mp hp with rfl | hp'
      · simp at hx
      · exact List.mem_cons_of_mem a (ih hp' hx)
    · rw [splitChar, if_neg hac] at hp
      cases heq : splitChar c t with
      | nil =>
        rw [heq] at hp
        simp only [List.mem_singleton] at hp
        subst hp
        simp only [List.mem_singleton] at hx
        subst hx
        exact List.mem_cons_self _ _
      | cons hh r =>
        rw [heq] at hp
        rcases List.mem_cons.mp hp with rfl | hp'
        · rcases List.mem_cons.mp hx with rfl | hx'
          · exact List.mem_cons_self x t
          · exact List.mem_cons_of_mem a (ih (heq ▸ List.mem_cons_self hh r) hx')
        · exact List.mem_cons_of_mem a (ih (heq ▸ List.mem_cons_of_mem hh hp') hx)

theorem mem_upToFirst {sep l : List Char} {x : Char} (h : x ∈ upToFirst sep l) :
    x ∈ l := by
  unfold upToFirst at h
  cases hf : findSubIdx l sep with
  | some i => rw [hf] at h; exact List.mem_of_mem_take h
  | none => rw [hf] at h; exact h

theorem mem_afterLastChar {c : Char} {l : List Char} {x : Char}
    (h : x ∈ afterLastChar c l) : x ∈ l := by
  unfold afterLastChar at h
  rw [List.mem_reverse] at h
  exact List.mem_reverse.mp ((List.takeWhile_sublist _).subset h)

theorem mem_rustTrim {l : List Char} {x : Char} (h : x ∈ rustTrim l) : x ∈ l := by
  unfold rustTrim at h
  rw [List.mem_reverse] at h
  have h2 := (List.dropWhile_sublist _).subset h
  rw [List.mem_reverse] at h2
  exact (List.dropWhile_sublist _).subset h2

theorem parseU16core_no_digit {t : List Char} (h : ∀ c ∈ t, c.isDigit = false) :
    parseU16core t = none := by
  unfold parseU16core
  rw [if_neg]
  rintro ⟨hne, hall⟩
  cases t with
  | nil => exact hne rfl
  | cons a r =>
    rw [List.all_cons] at hall
    have := h a (List.mem_cons_self a r)
    simp [this] at hall

theorem parseU16_no_digit {l : List Char} (h : ∀ c ∈ l, c.isDigit = false) :
    parseU16 l = none := by
  unfold parseU16
  apply parseU16core_no_digit
  intro c hc
  apply h
  by_cases hh : l.head? = some '+'
  · rw [if_pos hh] at hc
    exact List.tail_subset l hc
  · rw [if_neg hh] at hc
    exact hc

theorem parseU16_digits {p : List Char} (hne : p ≠ []) (hdig : p.all Char.isDigit = true)
    (hle : digitsVal p ≤ 65535) : parseU16 p = some (digitsVal p) := by
  have hhead : ¬ p.head? = some '+' := by
    cases p with
    | nil => simp
    | cons a t =>
      simp only [List.head?_cons, Option.some.injEq]
      intro hcontr
      rw [List.all_cons] at hdig
      have ha : a.isDigit = true := by
        cases hd : a.isDigit
        · rw [hd] at hdig; simp at hdig
        · rfl
      subst hcontr
      exact absurd ha (by decide)
  unfold parseU16
  rw [if_neg hhead]
  unfold parseU16core
  rw [if_pos ⟨hne, hdig⟩, if_pos hle]

theorem digit_not_ws {c : Char} (hd : c.isDigit = true) : c.isWhitespace = false := by
  cases hw : c.isWhitespace
  · rfl
  · exfalso
    have h4 : ((c = ' ' ∨ c = '\t') ∨ c = '\x0d') ∨ c = '\n' := by
      simpa [Char.isWhitespace] using hw
    rcases h4 with ((rfl | rfl) | rfl) | rfl <;> exact absurd hd (by decide)

theorem dropWhile_all_not {q : Char → Bool} {l : List Char} (h : ∀ x ∈ l, q x = false) :
    l.dropWhile q = l := by
  cases l with
  | nil => rfl
  | cons a t => rw [List.dropWhile_cons, h a (List.mem_cons_self a t)]; simp

theorem rustTrim_all_not_ws {l : List Char} (h : ∀ x ∈ l, x.isWhitespace = false) :
    rustTrim l = l := by
  unfold rustTrim
  rw [dropWhile_all_not h,
      dropWhile_all_not (fun x hx => h x (List.mem_reverse.mp hx)),
      List.reverse_reverse]

theorem takeWhile_append_first {q : Char → Bool} (l₁ : List Char) (c : Char) (l₂ : List Char)
    (h₁ : ∀ x ∈ l₁, q x = true) (hc : q c = false) :
    (l₁ ++ c :: l₂).takeWhile q = l₁ := by
  induction l₁ with
  | nil => simp [List.takeWhile_cons, hc]
  | cons a t ih =>
    rw [List.cons_append, List.takeWhile_cons, h₁ a (List.mem_cons_self a t)]
    simp only [if_true]
    rw [ih fun x hx => h₁ x (List.mem_cons_of_mem a hx)]

theorem afterLastChar_colon (h p : List Char) (hp : ∀ c ∈ p, c ≠ ':') :
    afterLastChar ':' (h ++ ':' :: p) = p := by
  unfold afterLastChar
  have hrev : (h ++ ':' :: p).reverse = p.reverse ++ ':' :: h.reverse := by
    simp
  rw [hrev, takeWhile_append_first p.reverse ':' h.reverse
      (fun x hx => decide_eq_true (hp x (List.mem_reverse.mp hx)))
      (by decide), List.reverse_reverse]

theorem findSubIdx_arrow (A B : List Char) (hA : ∀ c ∈ A, c ≠ '-') :
    findSubIdx (A ++ '-' :: '>' :: B) arrowSep = some A.length := by
  induction A with
  | nil =>
    rw [List.nil_append, findSubIdx, if_pos]
    · rfl
    · simp [arrowSep, List.isPrefixOf]
  | cons a t ih =>
    have ha : ('-' == a) = false :=
      beq_eq_false_iff_ne.mpr fun e => hA a (List.mem_cons_self a t) e.symm
    rw [List.cons_append, findSubIdx, if_neg]
    · rw [ih fun c hc => hA c (List.mem_cons_of_mem a hc)]
      rfl
    · simp [arrowSep, List.isPrefixOf, ha]

/-! ### C4: the port-mapping decoder -/

/-- C4 counterexample: the input `8000` contains no arrow, yet the decoder
returns 8000 rather than none, because the whole segment is taken as the
mapping and its last colon-field parses. -/
theorem c4_counterexample :
    strContains "8000" "->" = false ∧ extract_port "8000" = some 8000 := by decide

/-- C4 amended: the decoder returns none for every input with no decimal
digit (in particular the empty string); and for every valid single-mapping
string `H:P->C/proto` — host free of dashes and commas, remainder free of
commas, `P` a digit string whose value fits a u16 — it returns the value
of `P`. -/
theorem c4_extract_port :
    (∀ s : String, (∀ c ∈ s.data, c.isDigit = false) → extract_port s = none) ∧
    (∀ host p rest : List Char,
      p ≠ [] → p.all Char.isDigit = true → digitsVal p ≤ 65535 →
      (∀ c ∈ host, c ≠ ',' ∧ c ≠ '-') → (∀ c ∈ rest, c ≠ ',') →
      extract_port (String.mk (host ++ ':' :: p ++ '-' :: '>' :: rest)) =
        some (digitsVal p)) := by
  constructor
  · intro s hs
    unfold extract_port
    rw [List.findSome?_eq_none_iff]
    intro part hpart
    unfold portOfPart
    apply parseU16_no_digit
    intro c hc
    exact hs c (mem_of_splitChar hpart (mem_upToFirst (mem_afterLastChar (mem_rustTrim hc))))
  · intro host p rest hne hdig hle hhost hrest
    have hpd : ∀ c ∈ p, c.isDigit = true := fun c hc => by
      have := List.all_eq_true.mp hdig c hc
      simpa using this
    have hfull : (String.mk (host ++ ':' :: p ++ '-' :: '>' :: rest)).data
        = (host ++ ':' :: p) ++ '-' :: '>' :: rest := by
      simp
    have hnc : ',' ∉ (host ++ ':' :: p) ++ '-' :: '>' :: rest := by
      intro hmem
      rcases List.mem_append.mp hmem with hmem | hmem
      · rcases List.mem_append.mp hmem with hmem | hmem
        · exact (hhost ',' hmem).1 rfl
        · rcases List.mem_cons.mp hmem with heq | hmem
          · exact absurd heq (by decide)
          · exact absurd (hpd ',' hmem) (by decide)
      · rcases List.mem_cons.mp hmem with heq | hmem
        · exact absurd heq (by decide)
        · rcases List.mem_cons.mp hmem with heq | hmem
          · exact absurd heq (by decide)
          · exact hrest ',' hmem rfl
    have hup : upToFirst arrowSep ((host ++ ':' :: p) ++ '-' :: '>' :: rest)
        = host ++ ':' :: p := by
      unfold upToFirst
      rw [findSubIdx_arrow (host ++ ':' :: p) rest]
      · exact List.take_left _ _
      · intro c hc
        rcases List.mem_append.mp hc with hc | hc
        · exact (hhost c hc).2
        · rcases List.mem_cons.mp hc with rfl | hc
          · decide
          · intro e
            exact absurd (hpd c hc) (e ▸ by decide)
    have hafter : afterLastChar ':' (host ++ ':' :: p) = p :=
      afterLastChar_colon host p fun c hc e =>
        absurd (hpd c hc) (e ▸ by decide)
    have htrim : rustTrim p = p :=
      rustTrim_all_not_ws fun c hc => digit_not_ws (hpd c hc)
    unfold extract_port
    rw [hfull, splitChar_not_mem hnc, findSome?_singleton]
    unfold portOfPart
    rw [hup, hafter, htrim]
    exact parseU16_digits hne hdig hle

theorem c4_witness :
    ((∀ c ∈ ("some random text" : String).data, c.isDigit = false) ∧
      extract_port "some random text" = none) ∧
    (("8050" : String).data ≠ [] ∧
      extract_port (String.mk ("0.0.0.0".data ++ ':' :: "8050".data ++ '-' :: '>' :: "8000/tcp".data)) =
        some (digitsVal "8050".data)) :=
  ⟨⟨by decide, c4_extract_port.1 "some random text" (by decide)⟩,
   ⟨by decide, c4_extract_port.2 "0.0.0.0".data "8050".data "8000/tcp".data
      (by decide) (by decide) (by decide) (by decide) (by decide)⟩⟩

/-! ### C8: the mesh-URL body scan -/

/-- C8 counterexample: in a comma-free body where an `https://` occurrence
comes before the field literal, the code takes the segment's first
`https://` (before the literal), while the claim demands the first one
after the literal. -/
theorem c8_counterexample :
    scanMeshUrl "x https://a\" ushadow_api_url :\"https://b\"" = some "https://a" ∧
    claimMeshScan "x https://a\" ushadow_api_url :\"https://b\"" = some "https://b" ∧
    some ("https://a" : String) ≠ some ("https://b" : String) := by
  refine ⟨by decide, by decide, by decide⟩

/-- C8 amended: restricted to comma-free bodies, the scan returns none when
the field literal or an `https://` occurrence is absent; and when the
body's first `https://` occurrence lies after the field literal, it returns
the substring from that occurrence up to the next double quote (none when
no double quote follows). -/
theorem c8_mesh_scan (body : String) (hc : ',' ∉ body.data) :
    (findSubIdx body.data "ushadow_api_url".data = none → scanMeshUrl body = none) ∧
    (findSubIdx body.data "https://".data = none → scanMeshUrl body = none) ∧
    (∀ i₀ i : Nat, findSubIdx body.data "ushadow_api_url".data = some i₀ →
      findSubIdx body.data "https://".data = some i → i₀ + 15 ≤ i →
      scanMeshUrl body =
        match (body.data.drop i).findIdx? (· = '"') with
        | some e => some (String.mk ((body.data.drop i).take e))
        | none => none) := by
  have hsplit : splitChar ',' body.data = [body.data] := splitChar_not_mem hc
  refine ⟨?_, ?_, ?_⟩
  · intro hlit
    unfold scanMeshUrl
    rw [hsplit, findSome?_singleton, if_neg]
    intro hcontr
    rw [containsSub, hlit] at hcontr
    simp at hcontr
  · intro https_none
    unfold scanMeshUrl
    rw [hsplit, findSome?_singleton]
    by_cases hlit : containsSub body.data "ushadow_api_url".data = true
    · rw [if_pos hlit, https_none]
    · rw [if_neg hlit]
  · intro i₀ i hlit https_some _
    unfold scanMeshUrl
    rw [hsplit, findSome?_singleton, if_pos, https_some]
    rw [containsSub, hlit]
    rfl

theorem c8_witness :
    (',' ∉ ("\x7b\"ushadow_api_url\": \"https://x.ts.net\"\x7d" : String).data) ∧
      scanMeshUrl "\x7b\"ushadow_api_url\": \"https://x.ts.net\"\x7d" =
        match (("\x7b\"ushadow_api_url\": \"https://x.ts.net\"\x7d" : String).data.drop 21).findIdx?
            (· = '"') with
        | some e =>
          some (String.mk ((("\x7b\"ushadow_api_url\": \"https://x.ts.net\"\x7d" : String).data.drop 21).take e))
        | none => none :=
  ⟨by decide,
   (c8_mesh_scan "\x7b\"ushadow_api_url\": \"https://x.ts.net\"\x7d" (by decide)).2.2 2 21
     (by decide) (by decide) (by decide)⟩

/-! ### C5: the port allocator -/

theorem find_aux_none (avail : Nat → Bool) (db dw : Nat) :
    ∀ n o : Nat, 1000 < o + 10 * n → o ≤ 1000 →
      (∀ k, o ≤ k → k ≤ 1000 → (k - o) % 10 = 0 →
        (avail (db + k) && avail (dw + k)) = false) →
      find_available_ports_aux avail db dw o = (db, dw) := by
  intro n
  induction n with
  | zero =>
    intro o h1 h2 _
    omega
  | succ m ih =>
    intro o h1 h2 hbad
    rw [find_available_ports_aux]
    rw [hbad o le_rfl h2 (by omega)]
    simp only [Bool.false_eq_true, if_false]
    by_cases h10 : o + 10 > 1000
    · rw [if_pos h10]
    · rw [if_neg h10]
      exact ih (o + 10) (by omega) (by omega)
        (fun k hk1 hk2 hk3 => hbad k (by omega) hk2 (by omega))

theorem find_aux_found (avail : Nat → Bool) (db dw : Nat) :
    ∀ n o m : Nat, 1000 < o + 10 * n → o ≤ 1000 → o ≤ m → m ≤ 1000 →
      (m - o) % 10 = 0 →
      (avail (db + m) && avail (dw + m)) = true →
      (∀ k, o ≤ k → k < m → (k - o) % 10 = 0 →
        (avail (db + k) && avail (dw + k)) = false) →
      find_available_ports_aux avail db dw o = (db + m, dw + m) := by
  intro n
  induction n with
  | zero =>
    intro o m h1 h2 _ _ _ _ _
    omega
  | succ q ih =>
    intro o m h1 h2 hom hm1000 hmod hgood hmin
    rw [find_available_ports_aux]
    by_cases ho : (avail (db + o) && avail (dw + o)) = true
    · have heq : m = o := by
        by_contra hne
        have hlt : o < m := lt_of_le_of_ne hom (Ne.symm hne)
        have hb := hmin o le_rfl hlt (by omega)
        rw [hb] at ho
        exact absurd ho (by decide)
      subst heq
      rw [if_pos ho]
    · rw [if_neg ho]
      have hom' : o < m := by
        rcases eq_or_lt_of_le hom with rfl | h
        · exact absurd hgood ho
        · exact h
      have h10 : ¬ o + 10 > 1000 := by omega
      rw [if_neg h10]
      exact ih (o + 10) m (by omega) (by omega) (by omega) hm1000 (by omega) hgood
        (fun k hk1 hk2 hk3 => hmin k (by omega) hk2 (by omega))

theorem cp_loop_none (avail : Nat → Bool) :
    ∀ n o : Nat, 1000 < o + 10 * n →
      (∀ k, o ≤ k → k ≤ 1000 → (k - o) % 10 = 0 →
        (avail (8000 + k) && avail (3000 + k)) = false) →
      check_ports_loop avail o = 0 := by
  intro n
  induction n with
  | zero =>
    intro o h1 _
    rw [check_ports_loop, if_neg (by omega)]
  | succ m ih =>
    intro o h1 hbad
    rw [check_ports_loop]
    by_cases ho : o ≤ 1000
    · rw [if_pos ho, hbad o le_rfl ho (by omega)]
      simp only [Bool.false_eq_true, if_false]
      exact ih (o + 10) (by omega)
        (fun k hk1 hk2 hk3 => hbad k (by omega) hk2 (by omega))
    · rw [if_neg ho]

theorem cp_loop_found (avail : Nat → Bool) :
    ∀ n o m : Nat, 1000 < o + 10 * n → o ≤ m → m ≤ 1000 → (m - o) % 10 = 0 →
      (avail (8000 + m) && avail (3000 + m)) = true →
      (∀ k, o ≤ k → k < m → (k - o) % 10 = 0 →
        (avail (8000 + k) && avail (3000 + k)) = false) →
      check_ports_loop avail o = m := by
  intro n
  induction n with
  | zero =>
    intro o m h1 h2 h3 _ _ _
    omega
  | succ q ih =>
    intro o m h1 hom hm1000 hmod hgood hmin
    rw [check_ports_loop, if_pos (by omega)]
    by_cases ho : (avail (8000 + o) && avail (3000 + o)) = true
    · have heq : m = o := by
        by_contra hne
        have hlt : o < m := lt_of_le_of_ne hom (Ne.symm hne)
        have hb := hmin o le_rfl hlt (by omega)
        rw [hb] at ho
        exact absurd ho (by decide)
      subst heq
      rw [if_pos ho]
    · rw [if_neg ho]
      have hom' : o < m := by
        rcases eq_or_lt_of_le hom with rfl | h
        · exact absurd hgood ho
        · exact h
      exact ih (o + 10) m (by omega) (by omega) hm1000 (by omega) hgood
        (fun k hk1 hk2 hk3 => hmin k (by omega) hk2 (by omega))

/-- C5: with defaults (8000, 3000), the allocator returns the defaults with
offset 0 when both are free; otherwise it returns (8000+k, 3000+k) for the
smallest offset k = 10·j, 1 ≤ j ≤ 100, at which both ports are free; and
when no probed offset works it falls back to the unmodified defaults. -/
theorem c5_port_allocator (avail : Nat → Bool) :
    ((avail 8000 && avail 3000) = true →
      find_available_ports avail 8000 3000 = (8000, 3000) ∧
      check_ports avail = (true, true, 0)) ∧
    (∀ j : Nat, 1 ≤ j → j ≤ 100 →
      (avail (8000 + 10 * j) && avail (3000 + 10 * j)) = true →
      (∀ i : Nat, i < j → (avail (8000 + 10 * i) && avail (3000 + 10 * i)) = false) →
      find_available_ports avail 8000 3000 = (8000 + 10 * j, 3000 + 10 * j) ∧
      check_ports avail = (avail 8000, avail 3000, 10 * j)) ∧
    ((∀ i : Nat, i ≤ 100 → (avail (8000 + 10 * i) && avail (3000 + 10 * i)) = false) →
      find_available_ports avail 8000 3000 = (8000, 3000) ∧
      check_ports avail = (avail 8000, avail 3000, 0)) := by
  refine ⟨?_, ?_, ?_⟩
  · intro hfree
    constructor
    · rw [find_available_ports, find_available_ports_aux]
      have : (avail (8000 + 0) && avail (3000 + 0)) = true := by
        simpa using hfree
      rw [if_pos this]
    · rw [check_ports, if_pos hfree]
  · intro j hj1 hj100 hgood hmin
    have hbase : (avail (8000 + 0) && avail (3000 + 0)) = false := by
      have h0 := hmin 0 (by omega)
      simpa using h0
    constructor
    · rw [find_available_ports]
      refine find_aux_found avail 8000 3000 101 0 (10 * j) (by omega) (by omega)
        (by omega) (by omega) (by omega) hgood ?_
      intro k _ hk2 hk3
      obtain ⟨i, rfl⟩ : ∃ i, k = 10 * i := ⟨k / 10, by omega⟩
      exact hmin i (by omega)
    · rw [check_ports]
      rw [if_neg (by rw [show (avail 8000 && avail 3000) = false by simpa using hbase]; decide)]
      have hloop : check_ports_loop avail 10 = 10 * j := by
        refine cp_loop_found avail 100 10 (10 * j) (by omega) (by omega) (by omega)
          (by omega) hgood ?_
        intro k hk1 hk2 hk3
        obtain ⟨i, rfl⟩ : ∃ i, k = 10 * i := ⟨k / 10, by omega⟩
        exact hmin i (by omega)
      rw [hloop]
  · intro hbad
    have hbase : (avail 8000 && avail 3000) = false := by
      have h0 := hbad 0 (by omega)
      simpa using h0
    constructor
    · rw [find_available_ports]
      refine find_aux_none avail 8000 3000 101 0 (by omega) (by omega) ?_
      intro k _ hk2 hk3
      obtain ⟨i, rfl⟩ : ∃ i, k = 10 * i := ⟨k / 10, by omega⟩
      exact hbad i (by omega)
    · rw [check_ports]
      rw [if_neg (by rw [hbase]; decide)]
      have hloop : check_ports_loop avail 10 = 0 := by
        refine cp_loop_none avail 100 10 (by omega) ?_
        intro k hk1 hk2 hk3
        obtain ⟨i, rfl⟩ : ∃ i, k = 10 * i := ⟨k / 10, by omega⟩
        exact hbad i (by omega)
      rw [hloop]

theorem c5_witness :
    ((fun p => decide (p ≠ 8000)) (8000 + 10 * 1) &&
      (fun p => decide (p ≠ 8000)) (3000 + 10 * 1)) = true ∧
    find_available_ports (fun p => decide (p ≠ 8000)) 8000 3000 = (8000 + 10 * 1, 3000 + 10 * 1) ∧
    check_ports (fun p => decide (p ≠ 8000)) =
      ((fun p => decide (p ≠ 8000)) 8000, (fun p => decide (p ≠ 8000)) 3000, 10 * 1) := by
  have h := (c5_port_allocator (fun p => decide (p ≠ 8000))).2.1 1 (by decide) (by decide)
    (by decide)
    (by
      intro i hi
      have h0 : i = 0 := by omega
      subst h0
      decide)
  exact ⟨by decide, h.1, h.2⟩

/-! ### C7: infrastructure dedup, first match wins -/

theorem discoverFromLines_environments (lines : List String) (mesh : Nat → Option String)
    (tok : Bool) :
    (discoverFromLines lines mesh tok).environments = (backendsOf lines).map (mkEnv mesh) := by
  rw [discoverFromLines_eq]

theorem discoverFromLines_infrastructure (lines : List String) (mesh : Nat → Option String)
    (tok : Bool) :
    (discoverFromLines lines mesh tok).infrastructure =
      ((recordsOf lines).foldl infraStep ([], [])).2 := by
  rw [discoverFromLines_eq]

theorem infra_fold_step (recs : List ContainerRec) (r : ContainerRec) :
    ∀ (ps : List (String × String)) (st : List String × List InfraService),
      InfraInv (recs ++ [r]) st → InfraFresh recs st.1 ps →
      InfraInv (recs ++ [r]) (ps.foldl (infraStep1 r) st) ∧
      InfraFresh (recs ++ [r]) (ps.foldl (infraStep1 r) st).1 ps ∧
      (∀ p : String, p ∈ st.1 → p ∈ (ps.foldl (infraStep1 r) st).1) := by
  intro ps
  induction ps with
  | nil =>
    intro st hinv _
    exact ⟨hinv, fun pd hpd => absurd hpd (List.not_mem_nil pd), fun p hp => hp⟩
  | cons pd rest ih =>
    intro st hinv hfresh
    rw [List.foldl_cons]
    by_cases hcond : (matchesInfra r.name.data pd.1.data && !(st.1.contains pd.1)) = true
    · have hparts : matchesInfra r.name.data pd.1.data = true ∧ st.1.contains pd.1 = false := by
        simpa using hcond
      obtain ⟨hm, hcf⟩ := hparts
      have hnotmem : pd.1 ∉ st.1 := by simpa using hcf
      have hstep : infraStep1 r st pd =
          (pd.1 :: st.1, st.2 ++ [⟨pd.1, pd.2, r.running, r.ports⟩]) := by
        unfold infraStep1
        rw [if_pos hcond]
      rw [hstep]
      obtain ⟨hnodup, hiff, hfind⟩ := hinv
      have hfindnone : recs.find? (matchKey pd.1) = none :=
        hfresh pd (List.mem_cons_self pd rest) hnotmem
      have hnewfind : (recs ++ [r]).find? (matchKey pd.1) = some r := by
        rw [List.find?_append, hfindnone, Option.none_or]
        simp [List.find?, matchKey, hm]
      have hinv' : InfraInv (recs ++ [r])
          (pd.1 :: st.1, st.2 ++ [⟨pd.1, pd.2, r.running, r.ports⟩]) := by
        refine ⟨?_, ?_, ?_⟩
        · rw [List.map_append, List.nodup_append]
          refine ⟨hnodup, by simp, ?_⟩
          intro a ha hb
          simp only [List.map_cons, List.map_nil, List.mem_singleton] at hb
          subst hb
          exact hnotmem ((hiff _).mpr ha)
        · intro p
          constructor
          · intro hp
            rcases List.mem_cons.mp hp with rfl | hp'
            · rw [List.map_append]
              apply List.mem_append_right
              simp
            · rw [List.map_append]
              exact List.mem_append_left _ ((hiff p).mp hp')
          · intro hp
            rw [List.map_append] at hp
            rcases List.mem_append.mp hp with hp' | hp'
            · exact List.mem_cons_of_mem _ ((hiff p).mpr hp')
            · simp only [List.map_cons, List.map_nil, List.mem_singleton] at hp'
              subst hp'
              exact List.mem_cons_self _ _
        · intro s hs
          rcases List.mem_append.mp hs with hs' | hs'
          · exact hfind s hs'
          · rw [List.mem_singleton] at hs'
            subst hs'
            exact ⟨r, hnewfind, rfl, rfl⟩
      have hfresh' : InfraFresh recs (pd.1 :: st.1) rest :=
        fun pd' hpd' hnm =>
          hfresh pd' (List.mem_cons_of_mem pd hpd') fun hm' => hnm (List.mem_cons_of_mem _ hm')
      obtain ⟨hI, hF, hM⟩ :=
        ih (pd.1 :: st.1, st.2 ++ [⟨pd.1, pd.2, r.running, r.ports⟩]) hinv' hfresh'
      refine ⟨hI, ?_, ?_⟩
      · intro pd' hpd' hnm
        rcases List.mem_cons.mp hpd' with rfl | hpd''
        · exact absurd (hM pd'.1 (List.mem_cons_self _ _)) hnm
        · exact hF pd' hpd'' hnm
      · intro p hp
        exact hM p (List.mem_cons_of_mem _ hp)
    · have hstep : infraStep1 r st pd = st := by
        unfold infraStep1
        rw [if_neg hcond]
      rw [hstep]
      have hfresh' : InfraFresh recs st.1 rest :=
        fun pd' hpd' => hfresh pd' (List.mem_cons_of_mem pd hpd')
      obtain ⟨hI, hF, hM⟩ := ih st hinv hfresh'
      refine ⟨hI, ?_, hM⟩
      intro pd' hpd' hnm
      rcases List.mem_cons.mp hpd' with rfl | hpd''
      · have hnmem : pd'.1 ∉ st.1 := fun hmem => hnm (hM pd'.1 hmem)
        have hmf : matchesInfra r.name.data pd'.1.data = false := by
          cases hmm : matchesInfra r.name.data pd'.1.data
          · rfl
          · exfalso
            apply hcond
            rw [hmm]
            have hcf : st.1.contains pd'.1 = false := by simpa using hnmem
            rw [hcf]
            rfl
        rw [List.find?_append, hfresh pd' (List.mem_cons_self _ _) hnmem, Option.none_or]
        simp [List.find?, matchKey, hmf]
      · exact hF pd' hpd'' hnm

theorem infra_fold_main :
    ∀ (pending done : List ContainerRec) (st : List String × List InfraService),
      InfraInv done st → InfraFresh done st.1 INFRA_PATTERNS →
      InfraInv (done ++ pending) (pending.foldl infraStep st) ∧
      InfraFresh (done ++ pending) (pending.foldl infraStep st).1 INFRA_PATTERNS := by
  intro pending
  induction pending with
  | nil =>
    intro done st h1 h2
    rw [List.append_nil]
    exact ⟨h1, h2⟩
  | cons r rest ih =>
    intro done st hinv hfresh
    rw [List.foldl_cons]
    have hinv' : InfraInv (done ++ [r]) st := by
      obtain ⟨h1, h2, h3⟩ := hinv
      refine ⟨h1, h2, ?_⟩
      intro s hs
      obtain ⟨r₀, hr₀, hrun, hports⟩ := h3 s hs
      exact ⟨r₀, by rw [List.find?_append, hr₀]; rfl, hrun, hports⟩
    obtain ⟨hI, hF, _⟩ := infra_fold_step done r INFRA_PATTERNS st hinv' hfresh
    have hstep : infraStep st r = INFRA_PATTERNS.foldl (infraStep1 r) st := rfl
    rw [hstep]
    have hrec := ih (done ++ [r]) (INFRA_PATTERNS.foldl (infraStep1 r) st) hI hF
    rwa [List.append_assoc, List.singleton_append] at hrec

theorem infra_fold_base :
    InfraInv [] (([], []) : List String × List InfraService) ∧
    InfraFresh [] ([] : List String) INFRA_PATTERNS :=
  ⟨⟨List.nodup_nil, fun p => by simp, fun s hs => absurd hs (List.not_mem_nil s)⟩,
   fun pd _ _ => rfl⟩

/-- C7: in one discovery snapshot at most one InfraService is emitted per
infrastructure key, and its running state and ports come from the first
container record (in listing order) whose name matches that key. -/
theorem c7_infra_first_wins (di dr tok : Bool) (stdout err : String)
    (mesh : Nat → Option String) (d : DiscoveryResult)
    (h : discover_environments di dr tok (.ok (true, stdout, err)) mesh = .ok d) :
    (d.infrastructure.map InfraService.name).Nodup ∧
    ∀ s ∈ d.infrastructure,
      ∃ r, (recordsOf (linesOf stdout)).find? (matchKey s.name) = some r ∧
        s.running = r.running ∧ s.ports = r.ports := by
  rcases discover_ok_inv di dr tok _ mesh d h with hempty | ⟨stdout', stderr', hlist, hd⟩
  · rw [hempty]
    exact ⟨List.nodup_nil, fun s hs => absurd hs (List.not_mem_nil s)⟩
  · simp only [Except.ok.injEq, Prod.mk.injEq] at hlist
    obtain ⟨-, h2, -⟩ := hlist
    subst h2
    subst hd
    rw [discoverFromLines_infrastructure]
    have hbase := infra_fold_base
    have hmain := infra_fold_main (recordsOf (linesOf stdout)) [] ([], []) hbase.1 hbase.2
    rw [List.nil_append] at hmain
    obtain ⟨⟨hnodup, _, hfind⟩, _⟩ := hmain
    exact ⟨hnodup, hfind⟩

theorem c7_witness :
    discover_environments true true true (.ok (true, "infra-redis-1|Up|p1\nredis|Exited|p2", ""))
        (fun _ => none) =
      .ok (discoverFromLines (linesOf "infra-redis-1|Up|p1\nredis|Exited|p2") (fun _ => none) true) ∧
    (((discoverFromLines (linesOf "infra-redis-1|Up|p1\nredis|Exited|p2") (fun _ => none)
        true).infrastructure.map InfraService.name).Nodup ∧
     ∀ s ∈ (discoverFromLines (linesOf "infra-redis-1|Up|p1\nredis|Exited|p2") (fun _ => none)
        true).infrastructure,
       ∃ r, (recordsOf (linesOf "infra-redis-1|Up|p1\nredis|Exited|p2")).find?
           (matchKey s.name) = some r ∧
         s.running = r.running ∧ s.ports = r.ports) :=
  ⟨rfl, c7_infra_first_wins true true true "infra-redis-1|Up|p1\nredis|Exited|p2" ""
    (fun _ => none) _ rfl⟩

/-! ### C10: backends without a decodable port are silently omitted -/

/-- C10: a running backend container whose ports string is absent or yields
no decodable port contributes no Environment at all: removing it from the
listing leaves the environments unchanged, and a successful listing never
produces an error. -/
theorem c10_undecodable_omitted (l₁ l₂ : List String) (bad : String) (r : ContainerRec)
    (mesh : Nat → Option String) (tok : Bool)
    (hparse : parseLine bad = some r)
    (hrule : acceptsBackend r.name = true)
    (_hrun : r.running = true)
    (hport : r.ports.bind extract_port = none) :
    (discoverFromLines (l₁ ++ bad :: l₂) mesh tok).environments =
      (discoverFromLines (l₁ ++ l₂) mesh tok).environments ∧
    ∀ (di dr tok' : Bool) (stdout err : String) (mesh' : Nat → Option String),
      (discover_environments di dr tok' (.ok (true, stdout, err)) mesh').isOk = true := by
  constructor
  · have hstep : backendStep r = [] := by
      unfold backendStep
      rw [if_pos hrule]
      cases hp : r.ports with
      | none => rfl
      | some ps =>
        rw [hp] at hport
        simp only [Option.some_bind] at hport
        simp [hport]
    have hbk : backendsOf (l₁ ++ bad :: l₂) = backendsOf (l₁ ++ l₂) := by
      unfold backendsOf recordsOf
      rw [List.filterMap_append, List.filterMap_append, List.filterMap_cons, hparse]
      rw [List.flatMap_append, List.flatMap_append, List.flatMap_cons, hstep]
      simp
    rw [discoverFromLines_environments, discoverFromLines_environments, hbk]
  · intro di dr tok' stdout err mesh'
    cases hdd : di && dr
    · unfold discover_environments
      rw [hdd]
      rfl
    · unfold discover_environments
      rw [hdd]
      rfl

theorem c10_witness :
    parseLine "ushadow-backend|Up|garbage" =
      some ⟨"ushadow-backend", true, some "garbage"⟩ ∧
    ((discoverFromLines
        (["infra-redis-1|Up|p"] ++ "ushadow-backend|Up|garbage" ::
          ["ushadow-x-backend|Up|0.0.0.0:9000->8000/tcp"]) (fun _ => none) true).environments =
      (discoverFromLines (["infra-redis-1|Up|p"] ++ ["ushadow-x-backend|Up|0.0.0.0:9000->8000/tcp"])
        (fun _ => none) true).environments ∧
     ∀ (di dr tok' : Bool) (stdout err : String) (mesh' : Nat → Option String),
       (discover_environments di dr tok' (.ok (true, stdout, err)) mesh').isOk = true) :=
  ⟨by decide,
   c10_undecodable_omitted ["infra-redis-1|Up|p"] ["ushadow-x-backend|Up|0.0.0.0:9000->8000/tcp"]
     "ushadow-backend|Up|garbage" ⟨"ushadow-backend", true, some "garbage"⟩ (fun _ => none) true
     (by decide) (by decide) (by decide) (by decide)⟩

end Ushadow
